import Mathlib

/-!
Verification development for the chunked image difference / posterize /
3x3 sharpen streaming engine (lab-2 HLS kernels).

The definitions below are shallow embeddings of:
  - `inc/image_defines.h`      : THRESH_LOW, THRESH_HIGH, geometry constants
  - `inc/hls_helpers.h`        : `posterize`, `clip_u8`
  - `src_hw/accelerated_v2.cpp`: sequential 3-stage kernel (diff buffer, then
    sliding-window filter loop, then write-out)
  - `src_hw/accelerated_v3.cpp`: dataflow kernel (same stages connected by
    FIFO streams, read sequentially)
  - `src_hw/accelerated_v1.cpp`: flat full-frame kernel
  - `src_sw/hls_tb.cpp`        : flat software reference `sw_reference_logical`

A 512-bit word holding 64 pixels is modelled as a function from lane index
to pixel value (`Chunk`); `x.range(k*8+7, k*8)` is lane `k`, the top byte is
lane `P-1` and the bottom byte is lane `0`.  The fixed constants
HEIGHT = WIDTH = 256, PIXELS_PER_CHUNK = 64, CHUNKS_PER_ROW = 4 are
generalized into a configuration record so that claims quantified over
grid shapes can be stated; the concrete header constants appear as
`cfg256` below.
-/

set_option maxHeartbeats 1000000

namespace ImagePipe

/-- THRESH_LOW from `image_defines.h`. -/
def THRESH_LOW : ℕ := 32

/-- THRESH_HIGH from `image_defines.h`. -/
def THRESH_HIGH : ℕ := 96

/-- A chunk: one 512-bit transfer word, viewed as a map from lane index
(0 = lowest byte) to the 8-bit pixel value stored there. -/
def Chunk : Type := ℕ → ℕ

/-- The all-zero chunk (`uint512_t x = 0`). -/
def zeroChunk : Chunk := fun _ => 0

/-- Embedding of `posterize` from `hls_helpers.h`:
`(abs_diff < THRESH_LOW) ? 0 : (abs_diff < THRESH_HIGH) ? 128 : 255`. -/
def posterize (abs_diff : ℕ) : ℕ :=
  if abs_diff < THRESH_LOW then 0 else if abs_diff < THRESH_HIGH then 128 else 255

/-- Embedding of `clip_u8` from `hls_helpers.h`:
`x < 0 ? 0 : (x > 255 ? 255 : x)`. -/
def clip_u8 (x : ℤ) : ℕ :=
  if x < 0 then 0 else if 255 < x then 255 else x.toNat

/-- Embedding of the branch-form unsigned difference used in all kernels:
`(pA > pB) ? (pA - pB) : (pB - pA)` (on `uint8_t`, where the subtraction of
the smaller from the larger never wraps, so natural subtraction is exact). -/
def absDiff (pA pB : ℕ) : ℕ :=
  if pB < pA then pA - pB else pB - pA

/-- Geometry configuration: HEIGHT, WIDTH, PIXELS_PER_CHUNK (`P`) and
CHUNKS_PER_ROW (`CPR`) from `image_defines.h`. -/
structure Cfg where
  H : ℕ
  W : ℕ
  P : ℕ
  CPR : ℕ

/-- TOTAL_CHUNKS = CHUNKS_PER_ROW * HEIGHT. -/
def Cfg.TOTAL (cfg : Cfg) : ℕ := cfg.H * cfg.CPR

/-- LOOP_LIMIT = TOTAL_CHUNKS + CHUNKS_PER_ROW + 1 (accelerated_v2.cpp line 114). -/
def Cfg.LOOP_LIMIT (cfg : Cfg) : ℕ := cfg.TOTAL + cfg.CPR + 1

/-- The concrete configuration of `image_defines.h`:
HEIGHT = 256, WIDTH = 256, PIXELS_PER_CHUNK = 64, CHUNKS_PER_ROW = 4. -/
def cfg256 : Cfg := ⟨256, 256, 64, 4⟩

/-- The degenerate 4x4 worked-example configuration (P = 1, CHUNKS_PER_ROW = 4). -/
def cfg4 : Cfg := ⟨4, 4, 1, 4⟩

/-- One chunk of the difference stage (`Posterize_Loop` body in
accelerated_v2.cpp / `compute_diff_wide` body in accelerated_v3.cpp):
for each lane `k < P`, `valC.range(hi,lo) = posterize((pA > pB) ? pA-pB : pB-pA)`;
lanes outside `[0,P)` stay at the initial `valC = 0`. -/
def diffChunk (cfg : Cfg) (valA valB : Chunk) : Chunk :=
  fun k => if k < cfg.P then posterize (absDiff (valA k) (valB k)) else 0

/-- The packed chunk view of a flat row-major pixel buffer (what
`pack_pixels_fast` in hls_tb.cpp produces when `W = CPR * P`, i.e. no
padding): chunk `n`, lane `k` holds flat pixel `n * P + k`. -/
def packChunks (cfg : Cfg) (img : ℕ → ℕ) : ℕ → Chunk :=
  fun n k => if k < cfg.P then img (n * cfg.P + k) else 0

/-- Stage 1 of accelerated_v2.cpp as a map from chunk index to quantized
chunk (the contents of `C_tmp`). -/
def quantStage (cfg : Cfg) (A B : ℕ → Chunk) : ℕ → Chunk :=
  fun i => diffChunk cfg (A i) (B i)

/-- The `Calc_64` loop body of accelerated_v2.cpp (lines 163-205) /
accelerated_v3.cpp (lines 143-189): assemble the output chunk for
`out_idx` from the 3x3 chunk window.  Lanes outside `[0,P)` stay at the
initial `result_chunk = 0`. -/
def calcChunk (cfg : Cfg) (win : ℕ → ℕ → Chunk) (out_idx : ℕ) : Chunk :=
  fun k =>
    if k < cfg.P then
      if out_idx / cfg.CPR = 0 ∨ out_idx / cfg.CPR = cfg.H - 1
          ∨ (out_idx % cfg.CPR) * cfg.P + k = 0
          ∨ (out_idx % cfg.CPR) * cfg.P + k = cfg.W - 1 then 0
      else
        clip_u8 (5 * (win 1 1 k : ℤ) - (win 0 1 k : ℤ) - (win 2 1 k : ℤ)
          - (if 0 < k then (win 1 1 (k - 1) : ℤ) else (win 1 0 (cfg.P - 1) : ℤ))
          - (if k < cfg.P - 1 then (win 1 1 (k + 1) : ℤ) else (win 1 2 0 : ℤ)))
    else 0

/-- The per-iteration window update of the filter loop (accelerated_v2.cpp
lines 127-150, textually identical to accelerated_v3.cpp lines 101-127):
shift the window left (`win[r][0] <- win[r][1]; win[r][1] <- win[r][2]`),
then fill the right column from the line buffer and the incoming chunk
while `iter < TOTAL_CHUNKS`, and with zero chunks during the drain phase. -/
def windowShiftFill (cfg : Cfg) (iter : ℕ) (new_chunk : Chunk)
    (lb win : ℕ → ℕ → Chunk) : ℕ → ℕ → Chunk :=
  fun r c =>
    if c = 2 then
      if iter < cfg.TOTAL then
        if r = 0 then lb 0 (iter % cfg.CPR)
        else if r = 1 then lb 1 (iter % cfg.CPR)
        else new_chunk
      else zeroChunk
    else if c = 0 then win r 1 else win r 2

/-- The per-iteration line-buffer update (accelerated_v2.cpp lines 142-143,
guarded by `iter < TOTAL_CHUNKS`): `lb[0][col] <- lb[1][col];
lb[1][col] <- new_chunk`; untouched during the drain phase. -/
def lineBufferRoll (cfg : Cfg) (iter : ℕ) (new_chunk : Chunk)
    (lb : ℕ → ℕ → Chunk) : ℕ → ℕ → Chunk :=
  fun r c =>
    if iter < cfg.TOTAL ∧ c = iter % cfg.CPR then
      if r = 0 then lb 1 (iter % cfg.CPR) else new_chunk
    else lb r c

/-- State of the v2 filter loop: line buffer `lb[2][CPR]`, window
`win[3][3]`, the output buffer `C_filt` (zero-initialized static array),
plus two observers used by the temporal claims: how many input chunks have
been read from `C_tmp`, and the list of `out_idx` values emitted, in order. -/
structure FState where
  lb : ℕ → ℕ → Chunk
  win : ℕ → ℕ → Chunk
  out : ℕ → Chunk
  consumed : ℕ
  emitted : List ℕ

/-- Initial state: `Init_LB` and `Init_Win` zero every chunk; `C_filt` is a
zero-initialized static array. -/
def initState : FState :=
  { lb := fun _ _ => zeroChunk
    win := fun _ _ => zeroChunk
    out := fun _ => zeroChunk
    consumed := 0
    emitted := [] }

/-- One iteration of `Filter_Loop` in accelerated_v2.cpp (lines 116-208):
read `C_tmp[iter]` while `iter < TOTAL_CHUNKS` (a virtual zero chunk
afterwards), shift and refill the window, roll the line buffer, and when
`out_idx = iter - (CPR + 1)` lies in `[0, TOTAL_CHUNKS)` store the computed
chunk into `C_filt[out_idx]`. -/
def step (cfg : Cfg) (quant : ℕ → Chunk) (iter : ℕ) (s : FState) : FState :=
  { lb := lineBufferRoll cfg iter (if iter < cfg.TOTAL then quant iter else zeroChunk) s.lb
    win := windowShiftFill cfg iter (if iter < cfg.TOTAL then quant iter else zeroChunk) s.lb s.win
    out := fun i =>
      if (cfg.CPR + 1 ≤ iter ∧ iter - (cfg.CPR + 1) < cfg.TOTAL) ∧ i = iter - (cfg.CPR + 1) then
        calcChunk cfg
          (windowShiftFill cfg iter (if iter < cfg.TOTAL then quant iter else zeroChunk) s.lb s.win)
          (iter - (cfg.CPR + 1))
      else s.out i
    consumed := s.consumed + (if iter < cfg.TOTAL then 1 else 0)
    emitted := s.emitted ++
      (if cfg.CPR + 1 ≤ iter ∧ iter - (cfg.CPR + 1) < cfg.TOTAL then [iter - (cfg.CPR + 1)] else []) }

/-- State of the filter loop after `n` iterations. -/
def run (cfg : Cfg) (quant : ℕ → Chunk) : ℕ → FState
  | 0 => initState
  | n + 1 => step cfg quant n (run cfg quant n)

/-- Contents of `C_filt` after all LOOP_LIMIT iterations of `Filter_Loop`. -/
def finalOut (cfg : Cfg) (quant : ℕ → Chunk) : ℕ → Chunk :=
  (run cfg quant cfg.LOOP_LIMIT).out

/-- The full sequential v2 kernel `IMAGE_DIFF_POSTERIZE` of
accelerated_v2.cpp: stage 1 fills `C_tmp`, the filter loop fills `C_filt`,
and `Write_Loop` copies `C_filt[0..TOTAL_CHUNKS)` to `C`. -/
def IMAGE_DIFF_POSTERIZE_v2 (cfg : Cfg) (A B : ℕ → Chunk) : ℕ → Chunk :=
  finalOut cfg (quantStage cfg A B)

/-- State of the v3 `apply_filter_wide` worker: same line buffer and window,
but the quantized chunks arrive on a FIFO stream (modelled as the list of
not-yet-read elements, read in arrival order) and outputs leave on a FIFO
stream (modelled as the list of chunks written so far, in write order). -/
structure F3State where
  lb : ℕ → ℕ → Chunk
  win : ℕ → ℕ → Chunk
  stream : List Chunk
  outs : List Chunk

/-- One iteration of `Loop_Filter_Wide` in accelerated_v3.cpp (lines
89-192): `in_stream.read()` pops the next chunk while `iter < TOTAL_CHUNKS`,
the window and line buffer update exactly as in v2, and each computed chunk
is pushed onto the output stream. -/
def step3 (cfg : Cfg) (iter : ℕ) (s : F3State) : F3State :=
  { lb := lineBufferRoll cfg iter
      (if iter < cfg.TOTAL then s.stream.headD zeroChunk else zeroChunk) s.lb
    win := windowShiftFill cfg iter
      (if iter < cfg.TOTAL then s.stream.headD zeroChunk else zeroChunk) s.lb s.win
    stream := if iter < cfg.TOTAL then s.stream.tail else s.stream
    outs := s.outs ++
      (if cfg.CPR + 1 ≤ iter ∧ iter - (cfg.CPR + 1) < cfg.TOTAL then
        [calcChunk cfg
          (windowShiftFill cfg iter
            (if iter < cfg.TOTAL then s.stream.headD zeroChunk else zeroChunk) s.lb s.win)
          (iter - (cfg.CPR + 1))]
      else []) }

/-- State of `apply_filter_wide` after `n` iterations, started on `input`. -/
def run3 (cfg : Cfg) (input : List Chunk) : ℕ → F3State
  | 0 => ⟨fun _ _ => zeroChunk, fun _ _ => zeroChunk, input, []⟩
  | n + 1 => step3 cfg n (run3 cfg input n)

/-- The stream written by `compute_diff_wide` in accelerated_v3.cpp: chunks
`0, 1, ..., TOTAL_CHUNKS - 1` of the posterized difference, in order. -/
def compute_diff_wide (cfg : Cfg) (A B : ℕ → Chunk) : List Chunk :=
  (List.range cfg.TOTAL).map (fun i => diffChunk cfg (A i) (B i))

/-- The buffer written by `write_result_wide` in accelerated_v3.cpp:
`C[i]` receives the `i`-th chunk read from the filter's output stream. -/
def write_result_wide (outs : List Chunk) : ℕ → Chunk :=
  fun i => outs.getD i zeroChunk

/-- The full dataflow v3 kernel `IMAGE_DIFF_POSTERIZE` of
accelerated_v3.cpp: `compute_diff_wide`, `apply_filter_wide` and
`write_result_wide` connected by FIFO streams.  The streams are
order-preserving FIFO queues, so the deterministic (Kahn) denotation of the
dataflow composition is stage composition over the chunk sequences; the
declared queue capacity (depth 16) only constrains scheduling, not the
values that flow. -/
def IMAGE_DIFF_POSTERIZE_v3 (cfg : Cfg) (A B : ℕ → Chunk) : ℕ → Chunk :=
  write_result_wide (run3 cfg (compute_diff_wide cfg A B) cfg.LOOP_LIMIT).outs

/-- The `C_tmp[row][col]` buffer of accelerated_v1.cpp (stage 1, lines
107-147): `C_tmp[row][col] = posterize(|pA - pB|)` where the pixel comes
from chunk `row * CPR + col / P`, lane `col % P`. -/
def v1_C_tmp (cfg : Cfg) (A B : ℕ → Chunk) (row col : ℕ) : ℕ :=
  diffChunk cfg (A (row * cfg.CPR + col / cfg.P)) (B (row * cfg.CPR + col / cfg.P)) (col % cfg.P)

/-- The `Filter_Row`/`Filter_Col` stage of accelerated_v1.cpp (lines
154-188) applied to an arbitrary full-frame buffer `Ct`: border pixels are
zero, interior pixels are `clip_u8(5*center - north - south - west - east)`. -/
def v1_filter (cfg : Cfg) (Ct : ℕ → ℕ → ℕ) (i j : ℕ) : ℕ :=
  if i = 0 ∨ j = 0 ∨ i = cfg.H - 1 ∨ j = cfg.W - 1 then 0
  else
    clip_u8 (5 * (Ct i j : ℤ) - (Ct (i - 1) j : ℤ) - (Ct (i + 1) j : ℤ)
      - (Ct i (j - 1) : ℤ) - (Ct i (j + 1) : ℤ))

/-- The full flat v1 kernel of accelerated_v1.cpp, as a map from logical
pixel position to output value (`C_filt[i][j]`, which `Pack_Main_Loop`
copies verbatim into the output words). -/
def IMAGE_DIFF_POSTERIZE_v1 (cfg : Cfg) (A B : ℕ → Chunk) (i j : ℕ) : ℕ :=
  v1_filter cfg (v1_C_tmp cfg A B) i j

/-- The posterize pass of `sw_reference_logical` in hls_tb.cpp (lines
65-69): `diff = (int)A[i] - (int)B[i]; if (diff < 0) diff = -diff;` then
three-level thresholding. -/
def sw_quant (A B : ℕ → ℕ) (i : ℕ) : ℕ :=
  if ((A i : ℤ) - (B i : ℤ)).natAbs < THRESH_LOW then 0
  else if ((A i : ℤ) - (B i : ℤ)).natAbs < THRESH_HIGH then 128 else 255

/-- The flat (non-chunked) reference `sw_reference_logical` of hls_tb.cpp
(lines 60-86): borders forced to zero, interior pixels get the clipped
5-point stencil over the posterized difference, with row stride `W` and
flat index `idx = r * W + c` (the two sequential clamps of the testbench
are the `clip_u8` chain). -/
def sw_reference_logical (H W : ℕ) (A B : ℕ → ℕ) (r c : ℕ) : ℕ :=
  if r = 0 ∨ r = H - 1 ∨ c = 0 ∨ c = W - 1 then 0
  else
    clip_u8 (5 * (sw_quant A B (r * W + c) : ℤ)
      - (sw_quant A B (r * W + c - W) : ℤ) - (sw_quant A B (r * W + c + W) : ℤ)
      - (sw_quant A B (r * W + c - 1) : ℤ) - (sw_quant A B (r * W + c + 1) : ℤ))

/-- The quantized sample at grid position `(i, j)`, read through the chunk
stream: chunk `i * CPR + j / P`, lane `j % P`. -/
def chunkAt (cfg : Cfg) (quant : ℕ → Chunk) (i j : ℕ) : ℕ :=
  quant (i * cfg.CPR + j / cfg.P) (j % cfg.P)

/-!  Proof infrastructure: closed forms for the line buffer and window. -/

/-- Chunk `m` of the quantized stream for `0 ≤ m < TOTAL_CHUNKS`, and the
all-zero chunk for out-of-range `m` (used to describe positions of the
line buffer and window that still hold their zero initialization). -/
def Qz (cfg : Cfg) (quant : ℕ → Chunk) (m : ℤ) : Chunk :=
  if 0 ≤ m ∧ m < (cfg.TOTAL : ℤ) then quant m.toNat else zeroChunk

/-- The value sitting in window row `r` of a column that was filled at
iteration `m`: row 2 received chunk `m`, row 1 chunk `m - CPR`, row 0 chunk
`m - 2*CPR`, except that columns filled before iteration 0 or during the
drain phase (`m ≥ TOTAL_CHUNKS`) hold zero chunks. -/
def winVal (cfg : Cfg) (quant : ℕ → Chunk) (m : ℤ) (r : ℕ) : Chunk :=
  if 0 ≤ m ∧ m < (cfg.TOTAL : ℤ) then Qz cfg quant (m - (2 - (r : ℤ)) * cfg.CPR) else zeroChunk

/-- Index of the chunk held by `lb[1][col]` after `n` iterations: the
largest `m < min n TOTAL_CHUNKS` with `m % CPR = col` (negative when no
such write has happened yet). -/
def lbLast (cfg : Cfg) (n col : ℕ) : ℤ :=
  ((min n cfg.TOTAL : ℕ) : ℤ) - 1 - ((((min n cfg.TOTAL : ℕ) : ℤ) - 1 - (col : ℤ)) % (cfg.CPR : ℤ))

theorem Qz_neg (cfg : Cfg) (quant : ℕ → Chunk) {m : ℤ} (h : m < 0) :
    Qz cfg quant m = zeroChunk := by
  unfold Qz
  rw [if_neg]
  omega

theorem Qz_of (cfg : Cfg) (quant : ℕ → Chunk) {m : ℤ} (h0 : 0 ≤ m)
    (h1 : m < (cfg.TOTAL : ℤ)) : Qz cfg quant m = quant m.toNat := by
  unfold Qz
  rw [if_pos ⟨h0, h1⟩]

theorem neg_one_emod {m : ℤ} (hm : 0 < m) : (-1 : ℤ) % m = m - 1 := by
  have h : (-1 : ℤ) = (m - 1) + (-1) * m := by ring
  rw [h, Int.add_mul_emod_self]
  exact Int.emod_eq_of_lt (by omega) (by omega)

theorem emod_sub_one {a m : ℤ} (hm : 0 < m) (h : a % m ≠ 0) :
    (a - 1) % m = a % m - 1 := by
  have hm1 : m ≠ 1 := by
    intro h1
    exact h (by rw [h1, Int.emod_one])
  have hone : (1 : ℤ) % m = 1 := Int.emod_eq_of_lt (by omega) (by omega)
  have h0 : 0 ≤ a % m := Int.emod_nonneg a (by omega)
  have h1 : a % m < m := Int.emod_lt_of_pos a hm
  rw [Int.sub_emod, hone]
  exact Int.emod_eq_of_lt (by omega) (by omega)

/-- After a write at iteration `n` (with `n < TOTAL_CHUNKS`), the last
write into column `n % CPR` is `n` itself. -/
theorem lbLast_succ_self (cfg : Cfg) (hCPR : 1 ≤ cfg.CPR) {n : ℕ}
    (hT : n < cfg.TOTAL) : lbLast cfg (n + 1) (n % cfg.CPR) = n := by
  have hmin : min (n + 1) cfg.TOTAL = n + 1 := by omega
  have hz := Int.ediv_add_emod (n : ℤ) (cfg.CPR : ℤ)
  have harg : ((n + 1 : ℕ) : ℤ) - 1 - ((n % cfg.CPR : ℕ) : ℤ)
      = (cfg.CPR : ℤ) * ((n : ℤ) / (cfg.CPR : ℤ)) := by push_cast; omega
  unfold lbLast
  rw [hmin, harg, Int.mul_emod_right]
  push_cast
  omega

/-- Before the write at iteration `n` (with `n < TOTAL_CHUNKS`), the last
write into column `n % CPR` was one full row earlier, at `n - CPR`. -/
theorem lbLast_self (cfg : Cfg) (hCPR : 1 ≤ cfg.CPR) {n : ℕ}
    (hT : n < cfg.TOTAL) : lbLast cfg n (n % cfg.CPR) = (n : ℤ) - cfg.CPR := by
  have hmin : min n cfg.TOTAL = n := by omega
  have hz := Int.ediv_add_emod (n : ℤ) (cfg.CPR : ℤ)
  have harg : ((n : ℕ) : ℤ) - 1 - ((n % cfg.CPR : ℕ) : ℤ)
      = -1 + (cfg.CPR : ℤ) * ((n : ℤ) / (cfg.CPR : ℤ)) := by push_cast; omega
  unfold lbLast
  rw [hmin, harg, Int.add_mul_emod_self_left, neg_one_emod (by omega)]
  omega

/-- A write at iteration `n` leaves the last-write index of every other
column unchanged. -/
theorem lbLast_succ_other (cfg : Cfg) (hCPR : 1 ≤ cfg.CPR) {n col : ℕ}
    (hT : n < cfg.TOTAL) (hcol : col < cfg.CPR) (hne : col ≠ n % cfg.CPR) :
    lbLast cfg (n + 1) col = lbLast cfg n col := by
  have hmin1 : min (n + 1) cfg.TOTAL = n + 1 := by omega
  have hmin0 : min n cfg.TOTAL = n := by omega
  have hne0 : ((n : ℤ) - col) % (cfg.CPR : ℤ) ≠ 0 := by
    intro h0
    have hmods : (n : ℤ) % (cfg.CPR : ℤ) = (col : ℤ) % (cfg.CPR : ℤ) :=
      Int.emod_eq_emod_iff_emod_sub_eq_zero.mpr h0
    have hcolm : (col : ℤ) % (cfg.CPR : ℤ) = col :=
      Int.emod_eq_of_lt (by omega) (by exact_mod_cast hcol)
    have hnm : ((n % cfg.CPR : ℕ) : ℤ) = (n : ℤ) % (cfg.CPR : ℤ) := by push_cast; ring
    omega
  have hsub := emod_sub_one (m := (cfg.CPR : ℤ)) (by omega) hne0
  have harg : ((n + 1 : ℕ) : ℤ) - 1 - (col : ℤ) = (n : ℤ) - col := by push_cast; omega
  have harg0 : ((n : ℕ) : ℤ) - 1 - (col : ℤ) = ((n : ℤ) - col) - 1 := by push_cast; omega
  unfold lbLast
  rw [hmin1, hmin0, harg, harg0, hsub]
  omega

/-- During the drain phase the last-write indices are frozen. -/
theorem lbLast_succ_drain (cfg : Cfg) {n col : ℕ} (hT : cfg.TOTAL ≤ n) :
    lbLast cfg (n + 1) col = lbLast cfg n col := by
  have h1 : min (n + 1) cfg.TOTAL = cfg.TOTAL := by omega
  have h0 : min n cfg.TOTAL = cfg.TOTAL := by omega
  unfold lbLast
  rw [h1, h0]

/-- The last-write index is always below `min n TOTAL_CHUNKS`. -/
theorem lbLast_lt (cfg : Cfg) (hCPR : 1 ≤ cfg.CPR) (n col : ℕ) :
    lbLast cfg n col < ((min n cfg.TOTAL : ℕ) : ℤ) := by
  have h0 : 0 ≤ (((min n cfg.TOTAL : ℕ) : ℤ) - 1 - (col : ℤ)) % (cfg.CPR : ℤ) :=
    Int.emod_nonneg _ (by omega)
  unfold lbLast
  omega

/-- Closed form for the filter-loop state after `n` iterations
(accelerated_v2.cpp `Filter_Loop`): `lb[1][col]` holds the most recently
consumed chunk whose index is congruent to `col`, `lb[0][col]` the one a
row earlier, and window column `c` holds the values filled in at iteration
`n - 1 - (2 - c)`. -/
theorem run_inv (cfg : Cfg) (quant : ℕ → Chunk) (hCPR : 1 ≤ cfg.CPR) (n : ℕ) :
    (∀ col, col < cfg.CPR →
      (run cfg quant n).lb 1 col = Qz cfg quant (lbLast cfg n col) ∧
      (run cfg quant n).lb 0 col = Qz cfg quant (lbLast cfg n col - cfg.CPR)) ∧
    (∀ r, r < 3 → ∀ c, c < 3 →
      (run cfg quant n).win r c = winVal cfg quant ((n : ℤ) + c - 3) r) := by
  induction n with
  | zero =>
    constructor
    · intro col hcol
      have hlt := lbLast_lt cfg hCPR 0 col
      have hmin : min 0 cfg.TOTAL = 0 := by omega
      rw [hmin] at hlt
      constructor
      · exact (Qz_neg cfg quant (by omega)).symm
      · exact (Qz_neg cfg quant (by omega)).symm
    · intro r hr c hc
      have : ((0 : ℕ) : ℤ) + c - 3 < 0 := by omega
      show zeroChunk = winVal cfg quant ((0 : ℕ) + (c : ℤ) - 3) r
      unfold winVal
      rw [if_neg (by omega)]
  | succ n ih =>
    obtain ⟨ihlb, ihwin⟩ := ih
    have hcolmod : n % cfg.CPR < cfg.CPR := Nat.mod_lt n (by omega)
    constructor
    · -- line buffer after the roll
      intro col hcol
      show (lineBufferRoll cfg n (if n < cfg.TOTAL then quant n else zeroChunk)
        (run cfg quant n).lb) 1 col = _ ∧
        (lineBufferRoll cfg n (if n < cfg.TOTAL then quant n else zeroChunk)
          (run cfg quant n).lb) 0 col = _
      unfold lineBufferRoll
      by_cases hT : n < cfg.TOTAL
      · by_cases hc : col = n % cfg.CPR
        · subst hc
          have hAnd : n < cfg.TOTAL ∧ n % cfg.CPR = n % cfg.CPR := ⟨hT, rfl⟩
          constructor
          · -- lb[1][col] holds the fresh chunk `quant n`
            rw [if_pos hAnd, if_neg one_ne_zero, if_pos hT,
              lbLast_succ_self cfg hCPR hT,
              Qz_of cfg quant (by omega) (by exact_mod_cast hT)]
            simp
          · -- lb[0][col] holds the old lb[1][col]
            rw [if_pos hAnd, if_pos rfl, (ihlb _ hcolmod).1,
              lbLast_succ_self cfg hCPR hT, lbLast_self cfg hCPR hT]
        · rw [if_neg (fun h => hc h.2), if_neg (fun h => hc h.2),
            lbLast_succ_other cfg hCPR hT hcol hc]
          exact ihlb col hcol
      · rw [if_neg (fun h => hT h.1), if_neg (fun h => hT h.1),
          lbLast_succ_drain cfg (by omega)]
        exact ihlb col hcol
    · -- window after shift and fill
      intro r hr c hc
      show (windowShiftFill cfg n (if n < cfg.TOTAL then quant n else zeroChunk)
        (run cfg quant n).lb (run cfg quant n).win) r c = _
      unfold windowShiftFill
      interval_cases c
      · -- column 0 takes the old column 1
        rw [if_neg (by omega), if_pos rfl, ihwin r hr 1 (by omega)]
        have harg : ((n : ℕ) : ℤ) + (1 : ℕ) - 3 = ((n + 1 : ℕ) : ℤ) + (0 : ℕ) - 3 := by
          push_cast; ring
        rw [harg]
      · -- column 1 takes the old column 2
        rw [if_neg (by omega), if_neg (by omega), ihwin r hr 2 (by omega)]
        have harg : ((n : ℕ) : ℤ) + (2 : ℕ) - 3 = ((n + 1 : ℕ) : ℤ) + (1 : ℕ) - 3 := by
          push_cast; ring
        rw [harg]
      · -- column 2 is freshly filled
        rw [if_pos rfl]
        have harg : ((n + 1 : ℕ) : ℤ) + (2 : ℕ) - 3 = (n : ℤ) := by push_cast; ring
        rw [harg]
        by_cases hT : n < cfg.TOTAL
        · rw [if_pos hT]
          have hTz : (n : ℤ) < (cfg.TOTAL : ℤ) := by exact_mod_cast hT
          interval_cases r
          · -- row 0 comes from lb[0][col]
            rw [if_pos rfl, (ihlb _ hcolmod).2, lbLast_self cfg hCPR hT]
            unfold winVal
            rw [if_pos ⟨by omega, hTz⟩]
            have : (n : ℤ) - (cfg.CPR : ℤ) - (cfg.CPR : ℤ)
                = (n : ℤ) - (2 - ((0 : ℕ) : ℤ)) * (cfg.CPR : ℤ) := by push_cast; ring
            rw [this]
          · -- row 1 comes from lb[1][col]
            rw [if_neg (by omega), if_pos rfl, (ihlb _ hcolmod).1, lbLast_self cfg hCPR hT]
            unfold winVal
            rw [if_pos ⟨by omega, hTz⟩]
            have : (n : ℤ) - (cfg.CPR : ℤ) = (n : ℤ) - (2 - ((1 : ℕ) : ℤ)) * (cfg.CPR : ℤ) := by
              push_cast; ring
            rw [this]
          · -- row 2 takes the incoming chunk
            rw [if_neg (by omega), if_neg (by omega), if_pos hT]
            unfold winVal
            rw [if_pos ⟨by omega, hTz⟩]
            have : (n : ℤ) - (2 - ((2 : ℕ) : ℤ)) * (cfg.CPR : ℤ) = (n : ℤ) := by
              push_cast; ring
            rw [this, Qz_of cfg quant (by omega) hTz]
            simp
        · -- drain phase: the right column is zero chunks
          rw [if_neg hT]
          unfold winVal
          rw [if_neg (by omega)]

theorem winVal_of (cfg : Cfg) (quant : ℕ → Chunk) {m : ℤ} (r : ℕ) (h0 : 0 ≤ m)
    (h1 : m < (cfg.TOTAL : ℤ)) :
    winVal cfg quant m r = Qz cfg quant (m - (2 - (r : ℤ)) * cfg.CPR) := by
  unfold winVal
  rw [if_pos ⟨h0, h1⟩]

theorem step_out (cfg : Cfg) (quant : ℕ → Chunk) (iter : ℕ) (s : FState) (i : ℕ) :
    (step cfg quant iter s).out i =
      if (cfg.CPR + 1 ≤ iter ∧ iter - (cfg.CPR + 1) < cfg.TOTAL)
          ∧ i = iter - (cfg.CPR + 1) then
        calcChunk cfg ((step cfg quant iter s).win) (iter - (cfg.CPR + 1))
      else s.out i := rfl

theorem run_out_succ (cfg : Cfg) (quant : ℕ → Chunk) (n i : ℕ) :
    (run cfg quant (n + 1)).out i =
      if (cfg.CPR + 1 ≤ n ∧ n - (cfg.CPR + 1) < cfg.TOTAL)
          ∧ i = n - (cfg.CPR + 1) then
        calcChunk cfg ((run cfg quant (n + 1)).win) (n - (cfg.CPR + 1))
      else (run cfg quant n).out i :=
  step_out cfg quant n (run cfg quant n) i

/-- The output chunk for `out_idx` is computed, and stored into
`C_filt[out_idx]`, at iteration `out_idx + CPR + 1` (so it is visible from
state `out_idx + CPR + 2` on). -/
theorem run_out_emit (cfg : Cfg) (quant : ℕ → Chunk) (oi : ℕ) (h2 : oi < cfg.TOTAL) :
    (run cfg quant (oi + cfg.CPR + 2)).out oi =
      calcChunk cfg ((run cfg quant (oi + cfg.CPR + 2)).win) oi := by
  have hcond : (cfg.CPR + 1 ≤ oi + cfg.CPR + 1
      ∧ oi + cfg.CPR + 1 - (cfg.CPR + 1) < cfg.TOTAL)
      ∧ oi = oi + cfg.CPR + 1 - (cfg.CPR + 1) := by omega
  have hidx : oi + cfg.CPR + 1 - (cfg.CPR + 1) = oi := by omega
  show (step cfg quant (oi + cfg.CPR + 1) (run cfg quant (oi + cfg.CPR + 1))).out oi = _
  rw [step_out, if_pos hcond, hidx]
  rfl

/-- Once stored, `C_filt[out_idx]` is never overwritten by later iterations. -/
theorem out_stable (cfg : Cfg) (quant : ℕ → Chunk) (oi : ℕ) (h2 : oi < cfg.TOTAL) :
    ∀ n, oi + cfg.CPR + 2 ≤ n →
      (run cfg quant n).out oi = (run cfg quant (oi + cfg.CPR + 2)).out oi := by
  intro n h1
  induction n, h1 using Nat.le_induction with
  | base => rfl
  | succ n hn ih =>
    show (step cfg quant n (run cfg quant n)).out oi = _
    rw [step_out, if_neg (show ¬((cfg.CPR + 1 ≤ n ∧ n - (cfg.CPR + 1) < cfg.TOTAL)
      ∧ oi = n - (cfg.CPR + 1)) by omega)]
    exact ih

theorem finalOut_eq_calc (cfg : Cfg) (quant : ℕ → Chunk) (oi : ℕ) (h2 : oi < cfg.TOTAL) :
    finalOut cfg quant oi = calcChunk cfg ((run cfg quant (oi + cfg.CPR + 2)).win) oi := by
  unfold finalOut
  rw [out_stable cfg quant oi h2 cfg.LOOP_LIMIT
    (show oi + cfg.CPR + 2 ≤ cfg.TOTAL + cfg.CPR + 1 by omega),
    run_out_emit cfg quant oi h2]

/-- Chunk-level correctness of the sliding-window engine: output chunk
`out_idx`, lane `k`, equals zero on grid borders and otherwise the clipped
5-point stencil over the quantized chunks, with the west neighbor taken
from the previous chunk (`out_idx - 1`, lane `P-1`) at lane 0 and the east
neighbor from the next chunk (`out_idx + 1`, lane `0`) at lane `P-1`. -/
theorem finalOut_chunk_spec (cfg : Cfg) (quant : ℕ → Chunk) (hCPR : 1 ≤ cfg.CPR)
    (hP : 1 ≤ cfg.P) (hW : cfg.W = cfg.CPR * cfg.P) (oi k : ℕ)
    (hoiT : oi < cfg.TOTAL) (hk : k < cfg.P) :
    finalOut cfg quant oi k =
      if oi / cfg.CPR = 0 ∨ oi / cfg.CPR = cfg.H - 1 ∨ (oi % cfg.CPR) * cfg.P + k = 0
          ∨ (oi % cfg.CPR) * cfg.P + k = cfg.W - 1 then 0
      else
        clip_u8 (5 * (quant oi k : ℤ) - (quant (oi - cfg.CPR) k : ℤ)
          - (quant (oi + cfg.CPR) k : ℤ)
          - (if 0 < k then (quant oi (k - 1) : ℤ) else (quant (oi - 1) (cfg.P - 1) : ℤ))
          - (if k < cfg.P - 1 then (quant oi (k + 1) : ℤ) else (quant (oi + 1) 0 : ℤ))) := by
  rw [finalOut_eq_calc cfg quant oi hoiT]
  have hwv := (run_inv cfg quant hCPR (oi + cfg.CPR + 2)).2
  unfold calcChunk
  rw [if_pos hk]
  by_cases hb : oi / cfg.CPR = 0 ∨ oi / cfg.CPR = cfg.H - 1 ∨ (oi % cfg.CPR) * cfg.P + k = 0
      ∨ (oi % cfg.CPR) * cfg.P + k = cfg.W - 1
  · rw [if_pos hb, if_pos hb]
  · rw [if_neg hb, if_neg hb]
    push_neg at hb
    obtain ⟨hb1, hb2, hb3, hb4⟩ := hb
    have hTd : cfg.TOTAL = cfg.H * cfg.CPR := rfl
    have hd : cfg.CPR * (oi / cfg.CPR) + oi % cfg.CPR = oi := Nat.div_add_mod oi cfg.CPR
    have hmlt : oi % cfg.CPR < cfg.CPR := Nat.mod_lt _ (by omega)
    have hdivH : oi / cfg.CPR < cfg.H := by
      rw [Nat.div_lt_iff_lt_mul (by omega)]
      omega
    generalize hqd : oi / cfg.CPR = qD at hb1 hb2 hdivH hd
    generalize hrd : oi % cfg.CPR = rD at hb3 hb4 hd hmlt
    have hi1 : 1 ≤ qD := by omega
    have hi2 : qD < cfg.H - 1 := by omega
    have hq1 : cfg.CPR * 1 ≤ cfg.CPR * qD := Nat.mul_le_mul_left _ hi1
    have hoiC : cfg.CPR ≤ oi := by omega
    have hstep : (qD + 2) * cfg.CPR ≤ cfg.H * cfg.CPR :=
      Nat.mul_le_mul_right _ (by omega)
    have hexp : (qD + 2) * cfg.CPR = cfg.CPR * qD + 2 * cfg.CPR := by ring
    have hM : oi + cfg.CPR < cfg.TOTAL := by omega
    have hc11 : (run cfg quant (oi + cfg.CPR + 2)).win 1 1 = quant oi := by
      rw [hwv 1 (by omega) 1 (by omega),
        winVal_of cfg quant 1 (by push_cast; omega) (by push_cast; omega),
        Qz_of cfg quant (by push_cast; omega) (by push_cast; omega)]
      exact congrArg quant (by push_cast; omega)
    have hc01 : (run cfg quant (oi + cfg.CPR + 2)).win 0 1 = quant (oi - cfg.CPR) := by
      rw [hwv 0 (by omega) 1 (by omega),
        winVal_of cfg quant 0 (by push_cast; omega) (by push_cast; omega),
        Qz_of cfg quant (by push_cast; omega) (by push_cast; omega)]
      exact congrArg quant (by push_cast; omega)
    have hc21 : (run cfg quant (oi + cfg.CPR + 2)).win 2 1 = quant (oi + cfg.CPR) := by
      rw [hwv 2 (by omega) 1 (by omega),
        winVal_of cfg quant 2 (by push_cast; omega) (by push_cast; omega),
        Qz_of cfg quant (by push_cast; omega) (by push_cast; omega)]
      exact congrArg quant (by push_cast; omega)
    have hc10 : (run cfg quant (oi + cfg.CPR + 2)).win 1 0 = quant (oi - 1) := by
      rw [hwv 1 (by omega) 0 (by omega),
        winVal_of cfg quant 1 (by push_cast; omega) (by push_cast; omega),
        Qz_of cfg quant (by push_cast; omega) (by push_cast; omega)]
      exact congrArg quant (by push_cast; omega)
    rw [hc11, hc01, hc21, hc10]
    by_cases hkP1 : k < cfg.P - 1
    · rw [if_pos hkP1, if_pos hkP1]
    · -- k = P - 1: the east neighbor comes from the next chunk
      have hkeq : k = cfg.P - 1 := by omega
      have hPmul : 1 * cfg.P ≤ cfg.CPR * cfg.P := Nat.mul_le_mul_right _ hCPR
      have hsub1 : (cfg.CPR - 1) * cfg.P = cfg.CPR * cfg.P - cfg.P := Nat.sub_one_mul _ _
      have hcchk : rD ≠ cfg.CPR - 1 := by
        intro hcc
        apply hb4
        rw [hcc, hkeq, hW, hsub1]
        omega
      -- the chunk column is below CPR - 1, so window column 2 was filled
      -- before the drain phase and holds chunk `oi + 1`
      have hE : oi + cfg.CPR + 1 < cfg.TOTAL := by omega
      have hc12 : (run cfg quant (oi + cfg.CPR + 2)).win 1 2 = quant (oi + 1) := by
        rw [hwv 1 (by omega) 2 (by omega),
          winVal_of cfg quant 1 (by push_cast; omega) (by push_cast; omega),
          Qz_of cfg quant (by push_cast; omega) (by push_cast; omega)]
        exact congrArg quant (by push_cast; omega)
      rw [if_neg hkP1, if_neg hkP1, hc12]

/-- Closed form for the temporal observers: after `n` iterations the loop
has consumed `min n TOTAL_CHUNKS` input chunks and has emitted exactly the
output indices `0, 1, ..., min (n - (CPR+1)) TOTAL_CHUNKS - 1`, in order. -/
theorem run_count (cfg : Cfg) (quant : ℕ → Chunk) (n : ℕ) :
    (run cfg quant n).consumed = min n cfg.TOTAL ∧
    (run cfg quant n).emitted = List.range (min (n - (cfg.CPR + 1)) cfg.TOTAL) := by
  induction n with
  | zero =>
    refine ⟨?_, ?_⟩
    · show (0 : ℕ) = min 0 cfg.TOTAL
      omega
    · rw [show min (0 - (cfg.CPR + 1)) cfg.TOTAL = 0 from by omega]
      rfl
  | succ n ih =>
    obtain ⟨ihc, ihe⟩ := ih
    constructor
    · show (run cfg quant n).consumed + (if n < cfg.TOTAL then 1 else 0) = _
      by_cases hT : n < cfg.TOTAL
      · rw [if_pos hT, ihc]; omega
      · rw [if_neg hT, ihc]; omega
    · show (run cfg quant n).emitted
        ++ (if cfg.CPR + 1 ≤ n ∧ n - (cfg.CPR + 1) < cfg.TOTAL
            then [n - (cfg.CPR + 1)] else []) = _
      by_cases hE : cfg.CPR + 1 ≤ n ∧ n - (cfg.CPR + 1) < cfg.TOTAL
      · rw [if_pos hE, ihe,
          show min (n - (cfg.CPR + 1)) cfg.TOTAL = n - (cfg.CPR + 1) from by omega,
          show min (n + 1 - (cfg.CPR + 1)) cfg.TOTAL = (n - (cfg.CPR + 1)) + 1 from by omega,
          List.range_succ]
      · rw [if_neg hE, ihe,
          show min (n + 1 - (cfg.CPR + 1)) cfg.TOTAL
            = min (n - (cfg.CPR + 1)) cfg.TOTAL from by omega]
        simp

/-- Reading the `n`-th element of the diff stream. -/
theorem stream_head (cfg : Cfg) (quant : ℕ → Chunk) {n : ℕ} (hT : n < cfg.TOTAL) :
    ((((List.range cfg.TOTAL).map quant).drop n).headD zeroChunk) = quant n := by
  have hlen : n < ((List.range cfg.TOTAL).map quant).length := by
    rw [List.length_map, List.length_range]
    exact hT
  rw [List.drop_eq_getElem_cons hlen]
  show ((List.range cfg.TOTAL).map quant)[n] = quant n
  rw [List.getElem_map]
  exact congrArg quant (List.getElem_range _ _)

/-- The v3 filter worker, fed the diff stream over a FIFO, tracks the v2
filter loop state exactly: same line buffer, same window, and its output
stream lists exactly the chunks that v2 stores into `C_filt[0..]`. -/
theorem run3_run (cfg : Cfg) (quant : ℕ → Chunk) (n : ℕ) :
    (run3 cfg ((List.range cfg.TOTAL).map quant) n).lb = (run cfg quant n).lb ∧
    (run3 cfg ((List.range cfg.TOTAL).map quant) n).win = (run cfg quant n).win ∧
    (run3 cfg ((List.range cfg.TOTAL).map quant) n).stream
      = ((List.range cfg.TOTAL).map quant).drop (min n cfg.TOTAL) ∧
    (run3 cfg ((List.range cfg.TOTAL).map quant) n).outs.length
      = min (n - (cfg.CPR + 1)) cfg.TOTAL ∧
    (∀ i, i < min (n - (cfg.CPR + 1)) cfg.TOTAL →
      (run3 cfg ((List.range cfg.TOTAL).map quant) n).outs.getD i zeroChunk
        = (run cfg quant n).out i) := by
  induction n with
  | zero =>
    refine ⟨rfl, rfl, ?_, ?_, ?_⟩
    · rw [show min 0 cfg.TOTAL = 0 from by omega]
      rfl
    · rw [show min (0 - (cfg.CPR + 1)) cfg.TOTAL = 0 from by omega]
      rfl
    · intro i hi
      rw [show min (0 - (cfg.CPR + 1)) cfg.TOTAL = 0 from by omega] at hi
      omega
  | succ n ih =>
    obtain ⟨ihlb, ihwin, ihs, ihlen, ihout⟩ := ih
    have hnc : (if n < cfg.TOTAL
          then (run3 cfg ((List.range cfg.TOTAL).map quant) n).stream.headD zeroChunk
          else zeroChunk)
        = (if n < cfg.TOTAL then quant n else zeroChunk) := by
      by_cases hT : n < cfg.TOTAL
      · rw [if_pos hT, if_pos hT, ihs, show min n cfg.TOTAL = n from by omega,
          stream_head cfg quant hT]
      · rw [if_neg hT, if_neg hT]
    have hlb : (run3 cfg ((List.range cfg.TOTAL).map quant) (n + 1)).lb
        = (run cfg quant (n + 1)).lb := by
      show lineBufferRoll cfg n _ _ = lineBufferRoll cfg n _ _
      rw [hnc, ihlb]
    have hwin : (run3 cfg ((List.range cfg.TOTAL).map quant) (n + 1)).win
        = (run cfg quant (n + 1)).win := by
      show windowShiftFill cfg n _ _ _ = windowShiftFill cfg n _ _ _
      rw [hnc, ihlb, ihwin]
    refine ⟨hlb, hwin, ?_, ?_, ?_⟩
    · show (if n < cfg.TOTAL
          then (run3 cfg ((List.range cfg.TOTAL).map quant) n).stream.tail
          else (run3 cfg ((List.range cfg.TOTAL).map quant) n).stream) = _
      by_cases hT : n < cfg.TOTAL
      · rw [if_pos hT, ihs, show min n cfg.TOTAL = n from by omega, List.tail_drop,
          show min (n + 1) cfg.TOTAL = n + 1 from by omega]
      · rw [if_neg hT, ihs, show min (n + 1) cfg.TOTAL = min n cfg.TOTAL from by omega]
    · show ((run3 cfg ((List.range cfg.TOTAL).map quant) n).outs
          ++ (if cfg.CPR + 1 ≤ n ∧ n - (cfg.CPR + 1) < cfg.TOTAL then _ else [])).length = _
      rw [List.length_append]
      by_cases hE : cfg.CPR + 1 ≤ n ∧ n - (cfg.CPR + 1) < cfg.TOTAL
      · rw [if_pos hE, ihlen]
        show min (n - (cfg.CPR + 1)) cfg.TOTAL + 1 = _
        omega
      · rw [if_neg hE, ihlen]
        show min (n - (cfg.CPR + 1)) cfg.TOTAL + 0 = _
        omega
    · intro i hi
      show ((run3 cfg ((List.range cfg.TOTAL).map quant) n).outs
          ++ (if cfg.CPR + 1 ≤ n ∧ n - (cfg.CPR + 1) < cfg.TOTAL then _ else [])).getD
            i zeroChunk = _
      by_cases hE : cfg.CPR + 1 ≤ n ∧ n - (cfg.CPR + 1) < cfg.TOTAL
      · by_cases hiold : i < min (n - (cfg.CPR + 1)) cfg.TOTAL
        · rw [List.getD_append _ _ _ _ (by rw [ihlen]; exact hiold), ihout i hiold,
            run_out_succ, if_neg (by omega)]
        · -- the newly pushed chunk: i = n - (CPR + 1)
          have hieq : i = n - (cfg.CPR + 1) := by omega
          rw [if_pos hE, List.getD_append_right _ _ _ _ (by rw [ihlen]; omega), ihlen,
            show i - min (n - (cfg.CPR + 1)) cfg.TOTAL = 0 from by omega,
            run_out_succ,
            if_pos (show (cfg.CPR + 1 ≤ n ∧ n - (cfg.CPR + 1) < cfg.TOTAL)
              ∧ i = n - (cfg.CPR + 1) from ⟨hE, hieq⟩)]
          show calcChunk cfg ((run3 cfg ((List.range cfg.TOTAL).map quant) (n + 1)).win)
              (n - (cfg.CPR + 1))
            = calcChunk cfg ((run cfg quant (n + 1)).win) (n - (cfg.CPR + 1))
          rw [hwin]
      · rw [if_neg hE, List.append_nil,
          ihout i (by omega), run_out_succ, if_neg (by omega)]

/-- Branch-form unsigned subtraction on naturals computes the exact
absolute difference. -/
theorem absDiff_natAbs (a b : ℕ) : absDiff a b = ((a : ℤ) - (b : ℤ)).natAbs := by
  unfold absDiff
  split_ifs with h
  · omega
  · omega

/-- C6: the difference stage is a pure per-sample map computing
`posterize(|a - b|)`: level LOW (0) when `|a - b| < t_low = 32`, MID (128)
when `32 <= |a - b| < 96`, HIGH (255) otherwise; the branch-form unsigned
subtraction `(pA > pB) ? pA - pB : pB - pA` on 8-bit samples equals the
exact absolute difference; and each output lane depends only on the two
input samples of that lane. -/
theorem C6_diff_stage_pointwise (cfg : Cfg) (valA valB : Chunk) (k : ℕ)
    (hk : k < cfg.P) (ha : valA k < 256) (hb : valB k < 256) :
    diffChunk cfg valA valB k =
      (if ((valA k : ℤ) - (valB k : ℤ)).natAbs < THRESH_LOW then 0
       else if ((valA k : ℤ) - (valB k : ℤ)).natAbs < THRESH_HIGH then 128 else 255) ∧
    absDiff (valA k) (valB k) = ((valA k : ℤ) - (valB k : ℤ)).natAbs ∧
    (∀ valA2 valB2 : Chunk, valA2 k = valA k → valB2 k = valB k →
      diffChunk cfg valA2 valB2 k = diffChunk cfg valA valB k) := by
  refine ⟨?_, absDiff_natAbs _ _, ?_⟩
  · unfold diffChunk posterize
    rw [if_pos hk, absDiff_natAbs]
  · intro valA2 valB2 h1 h2
    unfold diffChunk
    rw [h1, h2]

theorem C6_diff_stage_pointwise_witness :
    (0 : ℕ) < cfg256.P ∧ (200 : ℕ) < 256 ∧ (160 : ℕ) < 256 ∧
    (diffChunk cfg256 (fun _ => 200) (fun _ => 160) 0 =
      (if (((200 : ℕ) : ℤ) - ((160 : ℕ) : ℤ)).natAbs < THRESH_LOW then 0
       else if (((200 : ℕ) : ℤ) - ((160 : ℕ) : ℤ)).natAbs < THRESH_HIGH then 128 else 255) ∧
    absDiff 200 160 = (((200 : ℕ) : ℤ) - ((160 : ℕ) : ℤ)).natAbs ∧
    (∀ valA2 valB2 : Chunk, valA2 0 = 200 → valB2 0 = 160 →
      diffChunk cfg256 valA2 valB2 0 = diffChunk cfg256 (fun _ => 200) (fun _ => 160) 0)) :=
  ⟨by decide, by decide, by decide,
    C6_diff_stage_pointwise cfg256 (fun _ => 200) (fun _ => 160) 0
      (by decide) (by decide) (by decide)⟩

/-- C7: over a full run the filter loop emits exactly TOTAL_CHUNKS output
chunks, with `out_idx` strictly increasing `0, 1, ..., TOTAL_CHUNKS - 1`;
nothing is emitted during the first `CPR + 1` iterations, and no input
chunk is consumed during the final `CPR + 1` of the
`LOOP_LIMIT = TOTAL_CHUNKS + CPR + 1` iterations (the consumed count is
already TOTAL_CHUNKS after iteration TOTAL_CHUNKS). -/
theorem C7_emission_schedule (cfg : Cfg) (quant : ℕ → Chunk) :
    (run cfg quant cfg.LOOP_LIMIT).emitted = List.range cfg.TOTAL ∧
    ((run cfg quant cfg.LOOP_LIMIT).emitted).Pairwise (· < ·) ∧
    (run cfg quant (cfg.CPR + 1)).emitted = [] ∧
    (run cfg quant cfg.LOOP_LIMIT).consumed = cfg.TOTAL ∧
    (run cfg quant cfg.TOTAL).consumed = (run cfg quant cfg.LOOP_LIMIT).consumed := by
  have hLL : cfg.LOOP_LIMIT = cfg.TOTAL + cfg.CPR + 1 := rfl
  have hfull : (run cfg quant cfg.LOOP_LIMIT).emitted = List.range cfg.TOTAL := by
    rw [(run_count cfg quant cfg.LOOP_LIMIT).2, hLL,
      show min (cfg.TOTAL + cfg.CPR + 1 - (cfg.CPR + 1)) cfg.TOTAL = cfg.TOTAL from by omega]
  refine ⟨hfull, ?_, ?_, ?_, ?_⟩
  · rw [hfull]
    exact List.pairwise_lt_range _
  · rw [(run_count cfg quant (cfg.CPR + 1)).2,
      show min (cfg.CPR + 1 - (cfg.CPR + 1)) cfg.TOTAL = 0 from by omega]
    rfl
  · rw [(run_count cfg quant cfg.LOOP_LIMIT).1, hLL]
    omega
  · rw [(run_count cfg quant cfg.TOTAL).1, (run_count cfg quant cfg.LOOP_LIMIT).1, hLL]
    omega

/-- C9: during the drain phase (iterations `iter >= TOTAL_CHUNKS`) the
line buffer is left completely untouched and the right window column
`win[0][2], win[1][2], win[2][2]` is supplied as all-zero chunks (so the
roll `lb[0][col] <- lb[1][col]; lb[1][col] <- incoming` happens only while
`iter < TOTAL_CHUNKS`). -/
theorem C9_drain_leaves_lb_unchanged (cfg : Cfg) (quant : ℕ → Chunk) (n : ℕ)
    (hT : cfg.TOTAL ≤ n) :
    (∀ r c, (run cfg quant (n + 1)).lb r c = (run cfg quant n).lb r c) ∧
    (∀ r, (run cfg quant (n + 1)).win r 2 = zeroChunk) := by
  constructor
  · intro r c
    show lineBufferRoll cfg n (if n < cfg.TOTAL then quant n else zeroChunk)
      (run cfg quant n).lb r c = _
    unfold lineBufferRoll
    rw [if_neg (fun h => absurd h.1 (by omega))]
  · intro r
    show windowShiftFill cfg n (if n < cfg.TOTAL then quant n else zeroChunk)
      (run cfg quant n).lb (run cfg quant n).win r 2 = zeroChunk
    unfold windowShiftFill
    rw [if_pos rfl, if_neg (by omega)]

theorem C9_drain_leaves_lb_unchanged_witness :
    cfg4.TOTAL ≤ 16 ∧
    ((∀ r c, (run cfg4 (fun n _ => n) (16 + 1)).lb r c = (run cfg4 (fun n _ => n) 16).lb r c) ∧
    (∀ r, (run cfg4 (fun n _ => n) (16 + 1)).win r 2 = zeroChunk)) :=
  ⟨by decide, C9_drain_leaves_lb_unchanged cfg4 (fun n _ => n) 16 (by decide)⟩

/-- C10: the wraparound neighbor chunks visible through the sliding window
never influence any output sample: at chunk-column 0 the computed chunk
does not depend on `win[1][0]` (whose only reader would be lane 0, which is
the absolute column 0 border and is forced to 0), and at chunk-column
`CPR - 1` it does not depend on `win[1][2]` (whose only reader would be
lane `P - 1`, the absolute column `W - 1` border). -/
theorem C10_wraparound_never_used (cfg : Cfg) (hCPR : 1 ≤ cfg.CPR) (hP : 1 ≤ cfg.P)
    (hW : cfg.W = cfg.CPR * cfg.P) (win win2 : ℕ → ℕ → Chunk) (oi : ℕ) :
    (oi % cfg.CPR = 0 →
      (∀ r c, ¬(r = 1 ∧ c = 0) → win r c = win2 r c) →
      ∀ k, calcChunk cfg win oi k = calcChunk cfg win2 oi k) ∧
    (oi % cfg.CPR = cfg.CPR - 1 →
      (∀ r c, ¬(r = 1 ∧ c = 2) → win r c = win2 r c) →
      ∀ k, calcChunk cfg win oi k = calcChunk cfg win2 oi k) := by
  constructor
  · intro hcol hagree k
    unfold calcChunk
    by_cases hk : k < cfg.P
    · rw [if_pos hk, if_pos hk]
      by_cases hbord : oi / cfg.CPR = 0 ∨ oi / cfg.CPR = cfg.H - 1
          ∨ (oi % cfg.CPR) * cfg.P + k = 0 ∨ (oi % cfg.CPR) * cfg.P + k = cfg.W - 1
      · rw [if_pos hbord, if_pos hbord]
      · rw [if_neg hbord, if_neg hbord]
        push_neg at hbord
        have hk0 : 0 < k := by
          have h3 := hbord.2.2.1
          rw [hcol] at h3
          omega
        simp only [if_pos hk0]
        rw [hagree 1 1 (by omega), hagree 0 1 (by omega), hagree 2 1 (by omega),
          hagree 1 2 (by omega)]
    · rw [if_neg hk, if_neg hk]
  · intro hcol hagree k
    unfold calcChunk
    by_cases hk : k < cfg.P
    · rw [if_pos hk, if_pos hk]
      by_cases hbord : oi / cfg.CPR = 0 ∨ oi / cfg.CPR = cfg.H - 1
          ∨ (oi % cfg.CPR) * cfg.P + k = 0 ∨ (oi % cfg.CPR) * cfg.P + k = cfg.W - 1
      · rw [if_pos hbord, if_pos hbord]
      · rw [if_neg hbord, if_neg hbord]
        push_neg at hbord
        have hkP1 : k < cfg.P - 1 := by
          rcases Nat.lt_or_ge k (cfg.P - 1) with h | h
          · exact h
          · exfalso
            apply hbord.2.2.2
            have hkeq : k = cfg.P - 1 := by omega
            have hPmul : 1 * cfg.P ≤ cfg.CPR * cfg.P := Nat.mul_le_mul_right _ hCPR
            have hsub1 : (cfg.CPR - 1) * cfg.P = cfg.CPR * cfg.P - cfg.P :=
              Nat.sub_one_mul _ _
            rw [hcol, hkeq, hW, hsub1]
            omega
        simp only [if_pos hkP1]
        rw [hagree 1 1 (by omega), hagree 0 1 (by omega), hagree 2 1 (by omega),
          hagree 1 0 (by omega)]
    · rw [if_neg hk, if_neg hk]

/-- Pointwise translation between the chunked difference stage fed with
packed buffers and the flat posterize pass of the testbench. -/
theorem quant_pack_eq (cfg : Cfg) (A B : ℕ → ℕ) (n k : ℕ) (hk : k < cfg.P) :
    quantStage cfg (packChunks cfg A) (packChunks cfg B) n k
      = sw_quant A B (n * cfg.P + k) := by
  unfold quantStage diffChunk packChunks sw_quant posterize
  simp only [if_pos hk]
  rw [absDiff_natAbs]

/-- Flat-position correctness of the sliding-window engine: the output
sample at grid position `(i, j)` (living in chunk `i*CPR + j/P`, lane
`j % P`) is zero on the borders and otherwise the clipped 5-point stencil
over the quantized samples at the four flat neighbors of `(i, j)`. -/
theorem finalOut_flat_spec (cfg : Cfg) (quant : ℕ → Chunk) (hCPR : 1 ≤ cfg.CPR)
    (hP : 1 ≤ cfg.P) (hW : cfg.W = cfg.CPR * cfg.P) {i j : ℕ}
    (hi : i < cfg.H) (hj : j < cfg.W) :
    finalOut cfg quant (i * cfg.CPR + j / cfg.P) (j % cfg.P) =
      if i = 0 ∨ i = cfg.H - 1 ∨ j = 0 ∨ j = cfg.W - 1 then 0
      else
        clip_u8 (5 * (quant (i * cfg.CPR + j / cfg.P) (j % cfg.P) : ℤ)
          - (quant ((i - 1) * cfg.CPR + j / cfg.P) (j % cfg.P) : ℤ)
          - (quant ((i + 1) * cfg.CPR + j / cfg.P) (j % cfg.P) : ℤ)
          - (quant (i * cfg.CPR + (j - 1) / cfg.P) ((j - 1) % cfg.P) : ℤ)
          - (quant (i * cfg.CPR + (j + 1) / cfg.P) ((j + 1) % cfg.P) : ℤ)) := by
  have hPpos : 0 < cfg.P := by omega
  have hjP : j / cfg.P < cfg.CPR := by
    rw [Nat.div_lt_iff_lt_mul hPpos]
    omega
  have hkP : j % cfg.P < cfg.P := Nat.mod_lt _ hPpos
  have hjsplit : j / cfg.P * cfg.P + j % cfg.P = j := by
    rw [mul_comm]
    exact Nat.div_add_mod j cfg.P
  have hoiT : i * cfg.CPR + j / cfg.P < cfg.TOTAL := by
    have h1 : (i + 1) * cfg.CPR ≤ cfg.H * cfg.CPR := Nat.mul_le_mul_right _ (by omega)
    have h2 : (i + 1) * cfg.CPR = i * cfg.CPR + cfg.CPR := by ring
    have hTd : cfg.TOTAL = cfg.H * cfg.CPR := rfl
    omega
  have hdiv : (i * cfg.CPR + j / cfg.P) / cfg.CPR = i := by
    rw [add_comm, Nat.add_mul_div_right _ _ (show 0 < cfg.CPR by omega),
      Nat.div_eq_of_lt hjP]
    omega
  have hmod : (i * cfg.CPR + j / cfg.P) % cfg.CPR = j / cfg.P := by
    rw [add_comm, Nat.add_mul_mod_self_right, Nat.mod_eq_of_lt hjP]
  rw [finalOut_chunk_spec cfg quant hCPR hP hW _ _ hoiT hkP, hdiv, hmod, hjsplit]
  by_cases hbord : i = 0 ∨ i = cfg.H - 1 ∨ j = 0 ∨ j = cfg.W - 1
  · rw [if_pos hbord, if_pos hbord]
  · rw [if_neg hbord, if_neg hbord]
    push_neg at hbord
    obtain ⟨h1, h2, h3, h4⟩ := hbord
    have hprodm : (i - 1) * cfg.CPR + cfg.CPR = i * cfg.CPR := by
      have ha1 : 1 * cfg.CPR ≤ i * cfg.CPR := Nat.mul_le_mul_right _ (by omega)
      have ha2 : (i - 1) * cfg.CPR = i * cfg.CPR - cfg.CPR := Nat.sub_one_mul _ _
      omega
    have hN : i * cfg.CPR + j / cfg.P - cfg.CPR = (i - 1) * cfg.CPR + j / cfg.P := by
      omega
    have hS : i * cfg.CPR + j / cfg.P + cfg.CPR = (i + 1) * cfg.CPR + j / cfg.P := by
      have : (i + 1) * cfg.CPR = i * cfg.CPR + cfg.CPR := by ring
      omega
    rw [hN, hS]
    by_cases h0 : 0 < j % cfg.P
    · -- west neighbor inside the same chunk
      have hsplit1 : j - 1 = (j % cfg.P - 1) + (j / cfg.P) * cfg.P := by omega
      have hwd : (j - 1) / cfg.P = j / cfg.P := by
        rw [hsplit1, Nat.add_mul_div_right _ _ hPpos, Nat.div_eq_of_lt (by omega)]
        omega
      have hwm : (j - 1) % cfg.P = j % cfg.P - 1 := by
        rw [hsplit1, Nat.add_mul_mod_self_right, Nat.mod_eq_of_lt (by omega)]
      rw [if_pos h0, hwd, hwm]
      by_cases h1e : j % cfg.P < cfg.P - 1
      · -- east neighbor inside the same chunk
        have hsplit2 : j + 1 = (j % cfg.P + 1) + (j / cfg.P) * cfg.P := by omega
        have hed : (j + 1) / cfg.P = j / cfg.P := by
          rw [hsplit2, Nat.add_mul_div_right _ _ hPpos, Nat.div_eq_of_lt (by omega)]
          omega
        have hem : (j + 1) % cfg.P = j % cfg.P + 1 := by
          rw [hsplit2, Nat.add_mul_mod_self_right, Nat.mod_eq_of_lt (by omega)]
        rw [if_pos h1e, hed, hem]
      · -- east neighbor is lane 0 of the next chunk
        have hsplit2 : j + 1 = 0 + (j / cfg.P + 1) * cfg.P := by
          have : (j / cfg.P + 1) * cfg.P = j / cfg.P * cfg.P + cfg.P := by ring
          omega
        have hed : (j + 1) / cfg.P = j / cfg.P + 1 := by
          rw [hsplit2, Nat.add_mul_div_right _ _ hPpos, Nat.div_eq_of_lt (by omega)]
          omega
        have hem : (j + 1) % cfg.P = 0 := by
          rw [hsplit2, Nat.add_mul_mod_self_right, Nat.mod_eq_of_lt (by omega)]
        have hE1 : i * cfg.CPR + (j / cfg.P + 1) = i * cfg.CPR + j / cfg.P + 1 := by omega
        rw [if_neg h1e, hed, hem, hE1]
    · -- west neighbor is lane P-1 of the previous chunk
      have hq1 : 1 ≤ j / cfg.P := by
        rcases Nat.eq_zero_or_pos (j / cfg.P) with h | h
        · exfalso
          rw [h] at hjsplit
          simp at hjsplit
          omega
        · omega
      have hprodq : (j / cfg.P - 1) * cfg.P + cfg.P = j / cfg.P * cfg.P := by
        have ha1 : 1 * cfg.P ≤ j / cfg.P * cfg.P := Nat.mul_le_mul_right _ hq1
        have ha2 : (j / cfg.P - 1) * cfg.P = j / cfg.P * cfg.P - cfg.P := Nat.sub_one_mul _ _
        omega
      have hsplit1 : j - 1 = (cfg.P - 1) + (j / cfg.P - 1) * cfg.P := by omega
      have hwd : (j - 1) / cfg.P = j / cfg.P - 1 := by
        rw [hsplit1, Nat.add_mul_div_right _ _ hPpos, Nat.div_eq_of_lt (by omega)]
        omega
      have hwm : (j - 1) % cfg.P = cfg.P - 1 := by
        rw [hsplit1, Nat.add_mul_mod_self_right, Nat.mod_eq_of_lt (by omega)]
      have hW1 : i * cfg.CPR + j / cfg.P - 1 = i * cfg.CPR + (j / cfg.P - 1) := by omega
      rw [if_neg h0, hwd, hwm, hW1]
      -- east: j % P = 0 < P - 1 unless P = 1
      by_cases h1e : j % cfg.P < cfg.P - 1
      · have hsplit2 : j + 1 = (j % cfg.P + 1) + (j / cfg.P) * cfg.P := by omega
        have hed : (j + 1) / cfg.P = j / cfg.P := by
          rw [hsplit2, Nat.add_mul_div_right _ _ hPpos, Nat.div_eq_of_lt (by omega)]
          omega
        have hem : (j + 1) % cfg.P = j % cfg.P + 1 := by
          rw [hsplit2, Nat.add_mul_mod_self_right, Nat.mod_eq_of_lt (by omega)]
        rw [if_pos h1e, hed, hem]
      · have hsplit2 : j + 1 = 0 + (j / cfg.P + 1) * cfg.P := by
          have : (j / cfg.P + 1) * cfg.P = j / cfg.P * cfg.P + cfg.P := by ring
          omega
        have hed : (j + 1) / cfg.P = j / cfg.P + 1 := by
          rw [hsplit2, Nat.add_mul_div_right _ _ hPpos, Nat.div_eq_of_lt (by omega)]
          omega
        have hem : (j + 1) % cfg.P = 0 := by
          rw [hsplit2, Nat.add_mul_mod_self_right, Nat.mod_eq_of_lt (by omega)]
        have hE1 : i * cfg.CPR + (j / cfg.P + 1) = i * cfg.CPR + j / cfg.P + 1 := by omega
        rw [if_neg h1e, hed, hem, hE1]

/-- C1: the chunked sliding-window implementation (line buffer plus 3x3
chunk window, `out_idx = iter - (CPR+1)`) produces, at every output
position, exactly the same sample as the flat non-chunked reference
`sw_reference_logical` computing `clip(5*center - north - south - west -
east)` on the full quantized grid with borders forced to 0; in particular
samples adjacent to a chunk boundary get their true west/east neighbors
from the adjacent chunks. -/
theorem C1_chunked_matches_flat_reference (cfg : Cfg) (hCPR : 2 ≤ cfg.CPR)
    (hP : 1 ≤ cfg.P) (hW : cfg.W = cfg.CPR * cfg.P) (A B : ℕ → ℕ) (i j : ℕ)
    (hi : i < cfg.H) (hj : j < cfg.W) :
    IMAGE_DIFF_POSTERIZE_v2 cfg (packChunks cfg A) (packChunks cfg B)
      (i * cfg.CPR + j / cfg.P) (j % cfg.P)
    = sw_reference_logical cfg.H cfg.W A B i j := by
  have hCPR1 : 1 ≤ cfg.CPR := by omega
  have hPpos : 0 < cfg.P := by omega
  have hkP : j % cfg.P < cfg.P := Nat.mod_lt _ hPpos
  have hjsplit : j / cfg.P * cfg.P + j % cfg.P = j := by
    rw [mul_comm]
    exact Nat.div_add_mod j cfg.P
  show finalOut cfg (quantStage cfg (packChunks cfg A) (packChunks cfg B)) _ _ = _
  rw [finalOut_flat_spec cfg _ hCPR1 hP hW hi hj]
  unfold sw_reference_logical
  by_cases hbord : i = 0 ∨ i = cfg.H - 1 ∨ j = 0 ∨ j = cfg.W - 1
  · rw [if_pos hbord, if_pos hbord]
  · rw [if_neg hbord, if_neg hbord]
    push_neg at hbord
    obtain ⟨h1, h2, h3, h4⟩ := hbord
    rw [quant_pack_eq cfg A B (i * cfg.CPR + j / cfg.P) (j % cfg.P) hkP,
      quant_pack_eq cfg A B ((i - 1) * cfg.CPR + j / cfg.P) (j % cfg.P) hkP,
      quant_pack_eq cfg A B ((i + 1) * cfg.CPR + j / cfg.P) (j % cfg.P) hkP,
      quant_pack_eq cfg A B (i * cfg.CPR + (j - 1) / cfg.P) ((j - 1) % cfg.P)
        (Nat.mod_lt _ hPpos),
      quant_pack_eq cfg A B (i * cfg.CPR + (j + 1) / cfg.P) ((j + 1) % cfg.P)
        (Nat.mod_lt _ hPpos)]
    have e1 : (i * cfg.CPR + j / cfg.P) * cfg.P + j % cfg.P = i * cfg.W + j := by
      have ha : (i * cfg.CPR + j / cfg.P) * cfg.P
          = i * (cfg.CPR * cfg.P) + j / cfg.P * cfg.P := by ring
      rw [hW]
      omega
    have e2 : ((i - 1) * cfg.CPR + j / cfg.P) * cfg.P + j % cfg.P
        = i * cfg.W + j - cfg.W := by
      have ha : ((i - 1) * cfg.CPR + j / cfg.P) * cfg.P
          = (i - 1) * (cfg.CPR * cfg.P) + j / cfg.P * cfg.P := by ring
      have hb : (i - 1) * (cfg.CPR * cfg.P) + cfg.CPR * cfg.P
          = i * (cfg.CPR * cfg.P) := by
        have hb1 : 1 * (cfg.CPR * cfg.P) ≤ i * (cfg.CPR * cfg.P) :=
          Nat.mul_le_mul_right _ (by omega)
        have hb2 : (i - 1) * (cfg.CPR * cfg.P)
            = i * (cfg.CPR * cfg.P) - cfg.CPR * cfg.P := Nat.sub_one_mul _ _
        omega
      rw [hW]
      omega
    have e3 : ((i + 1) * cfg.CPR + j / cfg.P) * cfg.P + j % cfg.P
        = i * cfg.W + j + cfg.W := by
      have ha : ((i + 1) * cfg.CPR + j / cfg.P) * cfg.P
          = i * (cfg.CPR * cfg.P) + cfg.CPR * cfg.P + j / cfg.P * cfg.P := by ring
      rw [hW]
      omega
    have e4 : (i * cfg.CPR + (j - 1) / cfg.P) * cfg.P + (j - 1) % cfg.P
        = i * cfg.W + j - 1 := by
      have ha : (i * cfg.CPR + (j - 1) / cfg.P) * cfg.P
          = i * (cfg.CPR * cfg.P) + (j - 1) / cfg.P * cfg.P := by ring
      have hb : (j - 1) / cfg.P * cfg.P + (j - 1) % cfg.P = j - 1 := by
        rw [mul_comm]
        exact Nat.div_add_mod _ _
      rw [hW]
      omega
    have e5 : (i * cfg.CPR + (j + 1) / cfg.P) * cfg.P + (j + 1) % cfg.P
        = i * cfg.W + j + 1 := by
      have ha : (i * cfg.CPR + (j + 1) / cfg.P) * cfg.P
          = i * (cfg.CPR * cfg.P) + (j + 1) / cfg.P * cfg.P := by ring
      have hb : (j + 1) / cfg.P * cfg.P + (j + 1) % cfg.P = j + 1 := by
        rw [mul_comm]
        exact Nat.div_add_mod _ _
      rw [hW]
      omega
    rw [e1, e2, e3, e4, e5]

/-- C4: every output sample on a grid border (row 0, row H-1, column 0 or
column W-1) is exactly 0, for every input, both in the chunked v2 kernel
and in the flat v1 kernel. -/
theorem C4_border_outputs_zero (cfg : Cfg) (hCPR : 1 ≤ cfg.CPR) (hP : 1 ≤ cfg.P)
    (hW : cfg.W = cfg.CPR * cfg.P) (A B : ℕ → Chunk) (i j : ℕ)
    (hi : i < cfg.H) (hj : j < cfg.W)
    (hbord : i = 0 ∨ i = cfg.H - 1 ∨ j = 0 ∨ j = cfg.W - 1) :
    IMAGE_DIFF_POSTERIZE_v2 cfg A B (i * cfg.CPR + j / cfg.P) (j % cfg.P) = 0 ∧
    IMAGE_DIFF_POSTERIZE_v1 cfg A B i j = 0 := by
  constructor
  · show finalOut cfg (quantStage cfg A B) _ _ = 0
    rw [finalOut_flat_spec cfg _ hCPR hP hW hi hj, if_pos hbord]
  · unfold IMAGE_DIFF_POSTERIZE_v1 v1_filter
    rw [if_pos (by tauto)]

/-- C8: on identical inputs (A = B) every quantized sample is the LOW
level, which is the numeric value 0 (this uses `t_low = THRESH_LOW > 0`,
so that `|a - a| = 0 < t_low`), and every output sample of the filter
stage is exactly 0. -/
theorem C8_identical_inputs_zero (cfg : Cfg) (hCPR : 1 ≤ cfg.CPR) (hP : 1 ≤ cfg.P)
    (hW : cfg.W = cfg.CPR * cfg.P) (A : ℕ → Chunk) :
    0 < THRESH_LOW ∧
    (∀ n k, quantStage cfg A A n k = 0) ∧
    (∀ i j, i < cfg.H → j < cfg.W →
      IMAGE_DIFF_POSTERIZE_v2 cfg A A (i * cfg.CPR + j / cfg.P) (j % cfg.P) = 0) := by
  have hzero : ∀ n k, quantStage cfg A A n k = 0 := by
    intro n k
    unfold quantStage diffChunk
    by_cases hk : k < cfg.P
    · rw [if_pos hk]
      have hd : absDiff (A n k) (A n k) = 0 := by
        unfold absDiff
        simp
      rw [hd]
      rfl
    · rw [if_neg hk]
  refine ⟨by decide, hzero, ?_⟩
  intro i j hi hj
  show finalOut cfg (quantStage cfg A A) _ _ = 0
  rw [finalOut_flat_spec cfg _ hCPR hP hW hi hj]
  by_cases hbord : i = 0 ∨ i = cfg.H - 1 ∨ j = 0 ∨ j = cfg.W - 1
  · rw [if_pos hbord]
  · rw [if_neg hbord]
    simp only [hzero]
    norm_num
    decide

/-- C2: the sequential multi-pass kernel (v2) and the dataflow kernel
(v3, stages connected by order-preserving FIFO streams) produce
bit-identical output grids on identical input, for every valid geometry
with H, W at least 3. -/
theorem C2_sequential_equals_pipelined (cfg : Cfg) (hH : 3 ≤ cfg.H) (hW3 : 3 ≤ cfg.W)
    (A B : ℕ → Chunk) (i : ℕ) (hi : i < cfg.TOTAL) (k : ℕ) :
    IMAGE_DIFF_POSTERIZE_v2 cfg A B i k = IMAGE_DIFF_POSTERIZE_v3 cfg A B i k := by
  have hLL : cfg.LOOP_LIMIT = cfg.TOTAL + cfg.CPR + 1 := rfl
  have hmin : min (cfg.LOOP_LIMIT - (cfg.CPR + 1)) cfg.TOTAL = cfg.TOTAL := by omega
  obtain ⟨-, -, -, -, hout⟩ := run3_run cfg (quantStage cfg A B) cfg.LOOP_LIMIT
  show finalOut cfg (quantStage cfg A B) i k
      = ((run3 cfg (compute_diff_wide cfg A B) cfg.LOOP_LIMIT).outs.getD i zeroChunk) k
  have hc : compute_diff_wide cfg A B
      = (List.range cfg.TOTAL).map (quantStage cfg A B) := rfl
  rw [hc, hout i (by omega)]
  rfl

/-- C3 counterexample: on the 4x4, P = 1 geometry, feed images whose last
row differs maximally (so the quantized chunks 12..15 are the HIGH level
255).  At iteration 17 the emitted out_idx is 12, which is within
`[0, TOTAL_CHUNKS)`, and 17 is within the loop range `[0, TOTAL + CPR]`,
yet the window center holds the all-zero chunk rather than quantized chunk
12: during the drain phase (iter > TOTAL_CHUNKS) the center no longer
tracks out_idx. -/
theorem C3_counterexample :
    cfg4.CPR + 1 ≤ 17 ∧ 17 - (cfg4.CPR + 1) < cfg4.TOTAL ∧
    17 ≤ cfg4.TOTAL + cfg4.CPR ∧
    (run cfg4 (quantStage cfg4
        (packChunks cfg4 (fun idx => if 12 ≤ idx then 255 else 0))
        (packChunks cfg4 (fun _ => 0))) 18).win 1 1 0
      ≠ quantStage cfg4
          (packChunks cfg4 (fun idx => if 12 ≤ idx then 255 else 0))
          (packChunks cfg4 (fun _ => 0)) (17 - (cfg4.CPR + 1)) 0 := by
  decide

/-- C3 (amended): for every iteration `iter` with
`0 ≤ out_idx = iter - (CPR+1) < TOTAL_CHUNKS` that additionally satisfies
`iter ≤ TOTAL_CHUNKS` (i.e. before the drain phase; equivalently
`out_idx ≤ TOTAL_CHUNKS - CPR - 1`), the window center `win[1][1]` holds
exactly the quantized chunk `out_idx`; and an output chunk is only ever
emitted for `out_idx` in `[0, TOTAL_CHUNKS)`. -/
theorem C3_center_holds_out_idx_until_drain (cfg : Cfg) (quant : ℕ → Chunk)
    (hCPR : 1 ≤ cfg.CPR) (iter : ℕ) (h1 : cfg.CPR + 1 ≤ iter)
    (h2 : iter - (cfg.CPR + 1) < cfg.TOTAL) (h3 : iter ≤ cfg.TOTAL) :
    (run cfg quant (iter + 1)).win 1 1 = quant (iter - (cfg.CPR + 1)) ∧
    (∀ n oi, oi ∈ (run cfg quant n).emitted → oi < cfg.TOTAL) := by
  constructor
  · have hwv := (run_inv cfg quant hCPR (iter + 1)).2 1 (by omega) 1 (by omega)
    rw [hwv, winVal_of cfg quant 1 (by push_cast; omega) (by push_cast; omega),
      Qz_of cfg quant (by push_cast; omega) (by push_cast; omega)]
    exact congrArg quant (by push_cast; omega)
  · intro n oi hmem
    rw [(run_count cfg quant n).2] at hmem
    have := List.mem_range.mp hmem
    omega

/-- C5: worked 4x4 scenario with chunk width P = 1 (CHUNKS_PER_ROW = 4,
LOOP_LIMIT = 21).  Writing `q 0 .. q 15` for the window-stage input values
A..P in raster order, the four interior outputs (out_idx 5, 6, 9, 10 at
grid positions (1,1), (1,2), (2,1), (2,2)) are
`clip(5F-B-J-E-G)`, `clip(5G-C-K-F-H)`, `clip(5J-F-N-I-K)`,
`clip(5K-G-O-J-L)`, and the twelve border outputs are 0. -/
theorem C5_worked_example_4x4 (q : ℕ → ℕ) :
    finalOut cfg4 (fun n _ => q n) 5 0
      = clip_u8 (5 * (q 5 : ℤ) - (q 1 : ℤ) - (q 9 : ℤ) - (q 4 : ℤ) - (q 6 : ℤ)) ∧
    finalOut cfg4 (fun n _ => q n) 6 0
      = clip_u8 (5 * (q 6 : ℤ) - (q 2 : ℤ) - (q 10 : ℤ) - (q 5 : ℤ) - (q 7 : ℤ)) ∧
    finalOut cfg4 (fun n _ => q n) 9 0
      = clip_u8 (5 * (q 9 : ℤ) - (q 5 : ℤ) - (q 13 : ℤ) - (q 8 : ℤ) - (q 10 : ℤ)) ∧
    finalOut cfg4 (fun n _ => q n) 10 0
      = clip_u8 (5 * (q 10 : ℤ) - (q 6 : ℤ) - (q 14 : ℤ) - (q 9 : ℤ) - (q 11 : ℤ)) ∧
    finalOut cfg4 (fun n _ => q n) 0 0 = 0 ∧
    finalOut cfg4 (fun n _ => q n) 1 0 = 0 ∧
    finalOut cfg4 (fun n _ => q n) 2 0 = 0 ∧
    finalOut cfg4 (fun n _ => q n) 3 0 = 0 ∧
    finalOut cfg4 (fun n _ => q n) 4 0 = 0 ∧
    finalOut cfg4 (fun n _ => q n) 7 0 = 0 ∧
    finalOut cfg4 (fun n _ => q n) 8 0 = 0 ∧
    finalOut cfg4 (fun n _ => q n) 11 0 = 0 ∧
    finalOut cfg4 (fun n _ => q n) 12 0 = 0 ∧
    finalOut cfg4 (fun n _ => q n) 13 0 = 0 ∧
    finalOut cfg4 (fun n _ => q n) 14 0 = 0 ∧
    finalOut cfg4 (fun n _ => q n) 15 0 = 0 :=
  ⟨rfl, rfl, rfl, rfl, rfl, rfl, rfl, rfl, rfl, rfl, rfl, rfl, rfl, rfl, rfl, rfl⟩

theorem C1_chunked_matches_flat_reference_witness :
    2 ≤ cfg4.CPR ∧ 1 ≤ cfg4.P ∧ cfg4.W = cfg4.CPR * cfg4.P ∧
    (2 : ℕ) < cfg4.H ∧ (1 : ℕ) < cfg4.W ∧
    IMAGE_DIFF_POSTERIZE_v2 cfg4
        (packChunks cfg4 (fun n => n * 17 % 256))
        (packChunks cfg4 (fun n => n * 5 % 256))
        (2 * cfg4.CPR + 1 / cfg4.P) (1 % cfg4.P)
      = sw_reference_logical cfg4.H cfg4.W
          (fun n => n * 17 % 256) (fun n => n * 5 % 256) 2 1 :=
  ⟨by decide, by decide, by decide, by decide, by decide,
    C1_chunked_matches_flat_reference cfg4 (by decide) (by decide) (by decide)
      (fun n => n * 17 % 256) (fun n => n * 5 % 256) 2 1 (by decide) (by decide)⟩

theorem C2_sequential_equals_pipelined_witness :
    3 ≤ cfg4.H ∧ 3 ≤ cfg4.W ∧ (5 : ℕ) < cfg4.TOTAL ∧
    IMAGE_DIFF_POSTERIZE_v2 cfg4
        (packChunks cfg4 (fun n => n * 31 % 256)) (packChunks cfg4 (fun _ => 7)) 5 0
      = IMAGE_DIFF_POSTERIZE_v3 cfg4
          (packChunks cfg4 (fun n => n * 31 % 256)) (packChunks cfg4 (fun _ => 7)) 5 0 :=
  ⟨by decide, by decide, by decide,
    C2_sequential_equals_pipelined cfg4 (by decide) (by decide)
      (packChunks cfg4 (fun n => n * 31 % 256)) (packChunks cfg4 (fun _ => 7))
      5 (by decide) 0⟩

theorem C3_center_holds_out_idx_until_drain_witness :
    1 ≤ cfg4.CPR ∧ cfg4.CPR + 1 ≤ 10 ∧ 10 - (cfg4.CPR + 1) < cfg4.TOTAL ∧
    (10 : ℕ) ≤ cfg4.TOTAL ∧
    (run cfg4 (fun n _ => n * 3) (10 + 1)).win 1 1
      = (fun n _ => n * 3) (10 - (cfg4.CPR + 1)) :=
  ⟨by decide, by decide, by decide, by decide,
    (C3_center_holds_out_idx_until_drain cfg4 (fun n _ => n * 3) (by decide) 10
      (by decide) (by decide) (by decide)).1⟩

theorem C4_border_outputs_zero_witness :
    1 ≤ cfg4.CPR ∧ 1 ≤ cfg4.P ∧ cfg4.W = cfg4.CPR * cfg4.P ∧
    (0 : ℕ) < cfg4.H ∧ (2 : ℕ) < cfg4.W ∧
    ((0 : ℕ) = 0 ∨ (0 : ℕ) = cfg4.H - 1 ∨ (2 : ℕ) = 0 ∨ (2 : ℕ) = cfg4.W - 1) ∧
    (IMAGE_DIFF_POSTERIZE_v2 cfg4 (fun n _ => n + 9) (fun _ _ => 1)
        (0 * cfg4.CPR + 2 / cfg4.P) (2 % cfg4.P) = 0 ∧
      IMAGE_DIFF_POSTERIZE_v1 cfg4 (fun n _ => n + 9) (fun _ _ => 1) 0 2 = 0) :=
  ⟨by decide, by decide, by decide, by decide, by decide, by decide,
    C4_border_outputs_zero cfg4 (by decide) (by decide) (by decide)
      (fun n _ => n + 9) (fun _ _ => 1) 0 2 (by decide) (by decide)
      (by decide)⟩

theorem C8_identical_inputs_zero_witness :
    1 ≤ cfg4.CPR ∧ 1 ≤ cfg4.P ∧ cfg4.W = cfg4.CPR * cfg4.P ∧
    (0 < THRESH_LOW ∧
      (∀ n k, quantStage cfg4 (fun n2 k2 => (n2 + k2) % 256) (fun n2 k2 => (n2 + k2) % 256) n k = 0) ∧
      (∀ i j, i < cfg4.H → j < cfg4.W →
        IMAGE_DIFF_POSTERIZE_v2 cfg4 (fun n2 k2 => (n2 + k2) % 256) (fun n2 k2 => (n2 + k2) % 256)
          (i * cfg4.CPR + j / cfg4.P) (j % cfg4.P) = 0)) :=
  ⟨by decide, by decide, by decide,
    C8_identical_inputs_zero cfg4 (by decide) (by decide) (by decide)
      (fun n2 k2 => (n2 + k2) % 256)⟩

theorem C10_wraparound_never_used_witness :
    1 ≤ cfg4.CPR ∧ 1 ≤ cfg4.P ∧ cfg4.W = cfg4.CPR * cfg4.P ∧
    (0 : ℕ) % cfg4.CPR = 0 ∧
    calcChunk cfg4 (fun r c _ => r * 10 + c) 0 0
      = calcChunk cfg4 (fun r c _ => if r = 1 ∧ c = 0 then 99 else r * 10 + c) 0 0 :=
  ⟨by decide, by decide, by decide, by decide,
    (C10_wraparound_never_used cfg4 (by decide) (by decide) (by decide)
        (fun r c _ => r * 10 + c)
        (fun r c _ => if r = 1 ∧ c = 0 then 99 else r * 10 + c) 0).1
      (by decide)
      (fun r c h => funext fun _ => (if_neg h).symm) 0⟩

end ImagePipe
